import Mathlib

/-!
# Verification of the mabi-pack container codec

A shallow embedding of the PACK container codec (`src/main.rs`, `src/pack.rs`,
`src/extract.rs`) and proofs about it.  Byte streams are modelled as `List Nat`
(each element a byte value), machine integers as `Nat` with explicit `% 2^32`
at the points where the Rust code truncates (`as u32` casts, `u32` wrapping
arithmetic).  The zlib compressor/decompressor is an external library
(`libflate`), not code of this repository, so the pipeline is parameterised
over `compress`/`decompress` functions; file-time blocks (Windows `FILETIME`
metadata, non-semantic) are parameterised byte blocks of fixed length.
Strings (`&str` entry names) are modelled as their UTF-8 byte lists.  The
repository only compiles with the Windows timestamp code (its `unix` cfg key
is never set), where `MAIN_SEPARATOR` is `'\'` and the separator rewrite
`s.replace(MAIN_SEPARATOR, "\\")` is the identity, so the name is written
verbatim.
-/

set_option maxRecDepth 4000000

deriving instance DecidableEq for Except

namespace Mabi

/-- `HEADER_SIZE` from `main.rs`. -/
def HEADER_SIZE : Nat := 0x220

/-- Modulus of 32-bit machine arithmetic. -/
def M32 : Nat := 2 ^ 32

/-- The error enumeration `MabiError` from `main.rs`, restricted to the
variants the embedded operations can produce.  All I/O failures (short reads)
are collapsed into `ioFail`. -/
inductive Err where
  | ioFail : Err
  | wrongFormat : Err
  | corruptedFile : Err
  | readHeaderFail : Err → Err
  | readIndexFail : Err → Err
  | extractFail : List Nat → Err → Err
deriving DecidableEq, Repr

/-- `HeadInfo` from `main.rs`. -/
structure HeadInfo where
  file_ver : Nat
  file_cnt : Nat
  index_size : Nat
  content_size : Nat
deriving DecidableEq, Repr

/-- `FileInfo` from `main.rs`; `name` is the UTF-8 byte list of the string. -/
structure FileInfo where
  name : List Nat
  version : Nat
  off : Nat
  raw_size : Nat
  uncompr_size : Nat
deriving DecidableEq, Repr

/-! ## Little-endian 32-bit integers (`byteorder` reads/writes) -/

/-- `write_u32::<LittleEndian>`: the four little-endian bytes of `n` (as u32). -/
def u32le (n : Nat) : List Nat :=
  [n % 256, (n >>> 8) % 256, (n >>> 16) % 256, (n >>> 24) % 256]

/-- `read_u32::<LittleEndian>` on a byte cursor; a short read is an I/O error. -/
def readU32 : List Nat → Except Err (Nat × List Nat)
  | b0 :: b1 :: b2 :: b3 :: r =>
      .ok (b0 + b1 * 256 + b2 * 65536 + b3 * 16777216, r)
  | _ => .error .ioFail

/-- `read_u8` on a byte cursor. -/
def readU8 : List Nat → Except Err (Nat × List Nat)
  | b :: r => .ok (b, r)
  | _ => .error .ioFail

/-- The little-endian 32-bit value stored at offset `off` of a byte list
(out-of-range bytes read as 0). -/
def leAt (f : List Nat) (off : Nat) : Nat :=
  f.getD off 0 + f.getD (off + 1) 0 * 256 + f.getD (off + 2) 0 * 65536 +
    f.getD (off + 3) 0 * 16777216

/-! ## MT19937 keystream (`mersenne_twister` crate, as used by the repo)

The crate's `MT19937`: 624-word state, seeded from a `u32` by the standard
`init_genrand` recurrence with `index = 624`, so the first `next_u32` call
regenerates (twists) the whole state in place and tempers word 0. -/

/-- `init_genrand` tail: words `i, i+1, ...` of the seeded state, given the
previous word. -/
def mtInitGo (prev i : Nat) : Nat → List Nat
  | 0 => []
  | n + 1 =>
      let v := (1812433253 * (prev ^^^ (prev >>> 30)) + i) % M32
      v :: mtInitGo v (i + 1) n

/-- The full seeded 624-word state (`SeedableRng::from_seed`). -/
def mtInit (seed : Nat) : List Nat :=
  seed % M32 :: mtInitGo (seed % M32) 1 623

/-- One twisted word: `y = (a & UPPER) | (b & LOWER)`;
`c ^ (y >> 1) ^ (if y odd then MATRIX_A else 0)`. -/
def twistVal (a b c : Nat) : Nat :=
  let y := (a &&& 0x80000000) ||| (b &&& 0x7fffffff)
  c ^^^ (y >>> 1) ^^^ (if y % 2 = 1 then 0x9908b0df else 0)

/-- The in-place state regeneration (`fill_next_state`), written functionally:
`acc` holds the already regenerated prefix, positions `< 227` take their
partner from the old state, later positions from the regenerated prefix, and
the last position also takes its successor from the regenerated prefix. -/
def twistGo (old : List Nat) (acc : List Nat) : Nat → List Nat
  | 0 => acc
  | n + 1 =>
      let i := acc.length
      let a := old.getD i 0
      let b := if i = 623 then acc.getD 0 0 else old.getD (i + 1) 0
      let c := if i < 227 then old.getD (i + 397) 0 else acc.getD (i - 227) 0
      twistGo old (acc ++ [twistVal a b c]) n

/-- `fill_next_state` on a 624-word state. -/
def twist (old : List Nat) : List Nat := twistGo old [] 624

/-- The output tempering of MT19937. -/
def temper (y : Nat) : Nat :=
  let y1 := y ^^^ (y >>> 11)
  let y2 := y1 ^^^ ((y1 <<< 7) &&& 0x9d2c5680)
  let y3 := y2 ^^^ ((y2 <<< 15) &&& 0xefc60000)
  y3 ^^^ (y3 >>> 18)

/-- Generator state: the 624-word state plus the output index. -/
abbrev MTState := List Nat × Nat

/-- `next_u32`: twist when the state is exhausted, then temper the next word. -/
def mtNext (st : MTState) : Nat × MTState :=
  if 624 ≤ st.2 then
    let s := twist st.1
    (temper (s.getD 0 0), (s, 1))
  else
    (temper (st.1.getD st.2 0), (st.1, st.2 + 1))

/-- The generator state right after seeding (`from_seed` leaves `index = 624`,
so the first draw twists). -/
def mtFresh (seed : Nat) : MTState := (mtInit seed, 624)

/-- The XOR loop shared by `pack_file` and `extract_file`: for every byte one
full 32-bit word is drawn and its low 8 bits (`as u8`) are XORed in. -/
def mtXorGo (st : MTState) : List Nat → List Nat
  | [] => []
  | b :: rest => (b ^^^ ((mtNext st).1 % 256)) :: mtXorGo (mtNext st).2 rest

/-- The first `n` raw 32-bit words drawn from state `st`. -/
def mtWordsGo (st : MTState) : Nat → List Nat
  | 0 => []
  | n + 1 => (mtNext st).1 :: mtWordsGo (mtNext st).2 n

/-- The first `n` words of the generator seeded with `seed`. -/
def mtWords (seed : Nat) (n : Nat) : List Nat := mtWordsGo (mtFresh seed) n

/-- The obfuscation transform of `pack_file` (`pack.rs` lines 26–29):
seed the generator with `(key << 7) ^ 0xA9C36DE1` (u32 arithmetic) and XOR
one drawn word's low byte into each buffer byte. -/
def packObfuscate (data : List Nat) (key : Nat) : List Nat :=
  mtXorGo (mtFresh (((key <<< 7) % M32) ^^^ 0xa9c36de1)) data

/-- The de-obfuscation transform of `extract_file` (`extract.rs` lines 42–45):
textually the same computation as `packObfuscate`, seeded from the entry's
`version`. -/
def extractDeobfuscate (data : List Nat) (version : Nat) : List Nat :=
  mtXorGo (mtFresh (((version <<< 7) % M32) ^^^ 0xa9c36de1)) data

/-! ## String block codec (`calc_str_size`, `write_str_block`, `read_str`) -/

/-- `calc_str_size` from `pack.rs`: block size and leading class byte for a
name of byte length `l`. -/
def calc_str_size (l : Nat) : Nat × Nat :=
  if l ≤ 14 then (16, 0)
  else if l ≤ 30 then (32, 1)
  else if l ≤ 46 then (48, 2)
  else if l ≤ 62 then (64, 3)
  else if l ≤ 94 then (96, 4)
  else ((l + 21) / 16 * 16, 5)

/-- `write_str_block` from `pack.rs`: class byte, for class 5 a 4-byte length
field `blockSize - 5`, the name bytes (the `MAIN_SEPARATOR → '\'` rewrite is
the identity on the compiling target), and zero padding to the block size. -/
def write_str_block (s : List Nat) : List Nat :=
  let al := (calc_str_size s.length).1
  let lead := (calc_str_size s.length).2
  let pre := if lead = 5 then lead :: u32le (al - 5) else [lead]
  pre ++ s ++ List.replicate (al - (pre.length + s.length)) 0

/-- `read_c_str` from `main.rs`: truncate at the first zero byte; a missing
terminator is a format error.  (UTF-8 validation is not modelled: names are
byte strings.) -/
def read_c_str (stm : List Nat) : Except Err (List Nat) :=
  match stm.findIdx? (· = 0) with
  | none => .error .wrongFormat
  | some len => .ok (stm.take len)

/-- `read_str` from `main.rs` on a byte cursor: resolve the block size from
the class byte (classes `0..=3` give `(n+1)*16 - 1` further bytes, class 4
gives `6*16 - 1`, class 5 reads an explicit 4-byte length, anything else is a
format error), read that many bytes, and cut at the null terminator. -/
def read_str (stm : List Nat) : Except Err (List Nat × List Nat) :=
  match readU8 stm with
  | .error e => .error e
  | .ok (lead, stm) =>
    match (if lead ≤ 3 then Except.ok ((lead + 1) * 16 - 1, stm)
           else if lead = 4 then Except.ok (6 * 16 - 1, stm)
           else if lead = 5 then readU32 stm
           else .error .wrongFormat) with
    | .error e => .error e
    | .ok (strSize, stm) =>
      if strSize ≤ stm.length then
        match read_c_str (stm.take strSize) with
        | .error e => .error e
        | .ok s => .ok (s, stm.drop strSize)
      else .error .ioFail

/-! ## Header codec (`write_header`, `read_header`) -/

/-- The `"data\"` tag bytes written by `write_header`. -/
def dataTag : List Nat := [0x64, 0x61, 0x74, 0x61, 0x5c]

/-- `write_header` from `pack.rs`.  `time16` is the 16-byte block written by
`write_header_time` (two Windows `FILETIME` values; non-semantic metadata). -/
def write_header (time16 : List Nat) (h : HeadInfo) : List Nat :=
  u32le 0x4b434150 ++ u32le 0x102 ++ u32le h.file_ver ++ u32le h.file_cnt ++
    time16 ++ dataTag ++ List.replicate (0x1e0 - 5) 0 ++
    u32le h.file_cnt ++ u32le h.index_size ++ u32le 0 ++ u32le h.content_size ++
    List.replicate 16 0

/-- `read_header` from `main.rs`, reading from the start of the container:
check magic and pack version, read `file_ver` and `file_cnt`, seek `0x1f0`
bytes forward, check the repeated `file_cnt`, then read `index_size`, skip 4
bytes, and read `content_size`. -/
def read_header (f : List Nat) : Except Err HeadInfo :=
  match readU32 f with
  | .error e => .error e
  | .ok (magic, r) =>
    match readU32 r with
    | .error e => .error e
    | .ok (pack_ver, r) =>
      if magic ≠ 0x4b434150 ∨ pack_ver ≠ 0x102 then .error .wrongFormat
      else
        match readU32 r with
        | .error e => .error e
        | .ok (file_ver, r) =>
          match readU32 r with
          | .error e => .error e
          | .ok (file_cnt, r) =>
            match readU32 (r.drop 0x1f0) with
            | .error e => .error e
            | .ok (cnt2, r) =>
              if cnt2 ≠ file_cnt then .error .wrongFormat
              else
                match readU32 r with
                | .error e => .error e
                | .ok (index_size, r) =>
                  match readU32 (r.drop 4) with
                  | .error e => .error e
                  | .ok (content_size, _) =>
                    .ok ⟨file_ver, file_cnt, index_size, content_size⟩

/-! ## Index record codec (`write_file_entry`, `read_index`) -/

/-- `write_file_entry` from `pack.rs`.  `time40` is the 40-byte block written
by `write_file_time` (five Windows `FILETIME` values; non-semantic). -/
def write_file_entry (time40 : List Nat) (ent : FileInfo) : List Nat :=
  write_str_block ent.name ++ u32le ent.version ++ u32le 0 ++ u32le ent.off ++
    u32le ent.raw_size ++ u32le ent.uncompr_size ++ u32le 1 ++ time40

/-- The per-entry loop body of `read_index`: decode `file_cnt` records from
the index buffer. -/
def read_index_go (buf : List Nat) : Nat → Except Err (List FileInfo)
  | 0 => .ok []
  | n + 1 =>
    match read_str buf with
    | .error e => .error e
    | .ok (name, r) =>
      match readU32 r with
      | .error e => .error e
      | .ok (version, r) =>
        match readU32 (r.drop 4) with
        | .error e => .error e
        | .ok (off, r) =>
          match readU32 r with
          | .error e => .error e
          | .ok (raw_size, r) =>
            match readU32 r with
            | .error e => .error e
            | .ok (uncompr_size, r) =>
              match read_index_go (r.drop 0x2c) n with
              | .error e => .error e
              | .ok rest =>
                .ok (⟨name, version, off, raw_size, uncompr_size⟩ :: rest)

/-- `read_index` from `main.rs`: read exactly `index_size` bytes starting at
`HEADER_SIZE` and decode `file_cnt` records from them. -/
def read_index (f : List Nat) (h : HeadInfo) : Except Err (List FileInfo) :=
  if HEADER_SIZE + h.index_size ≤ f.length then
    read_index_go ((f.drop HEADER_SIZE).take h.index_size) h.file_cnt
  else .error .ioFail

/-! ## Content transform pipeline (`pack_file`, `extract_file`) -/

/-- `pack_file` from `pack.rs`, with the file contents supplied directly and
the zlib encoder as a parameter: compress, obfuscate, and record the entry
metadata (`off` is filled in later by `run_pack`; the `as u32` casts wrap). -/
def pack_file (compress : List Nat → List Nat) (content : List Nat)
    (rel_path : List Nat) (key : Nat) : FileInfo × List Nat :=
  let encoded := packObfuscate (compress content) key
  (⟨rel_path, key, 0, encoded.length % M32, content.length % M32⟩, encoded)

/-- `extract_file` from `extract.rs`, with the zlib decoder as a parameter
and the extracted bytes returned instead of written to disk: seek to
`HEADER_SIZE + index_size + off`, read exactly `raw_size` bytes,
de-obfuscate, decompress, and reject a decompressed length different from
`uncompr_size` as a corrupted file. -/
def extract_file (decompress : List Nat → Option (List Nat)) (f : List Nat)
    (h : HeadInfo) (fi : FileInfo) : Except Err (List Nat) :=
  let start := HEADER_SIZE + h.index_size + fi.off
  if start + fi.raw_size ≤ f.length then
    let buff := (f.drop start).take fi.raw_size
    let buff := extractDeobfuscate buff fi.version
    match decompress buff with
    | none => .error .ioFail
    | some decoded =>
        if decoded.length ≠ fi.uncompr_size then .error .corruptedFile
        else .ok decoded
  else .error .ioFail

/-! ## Container assembler (`run_pack`) and reader (`run_extract`)

The output file handle is modelled as a byte list together with the cursor
position; `seek(Start p)` sets the position and a write splices the bytes at
the position, zero-extending the file if the position lies beyond its end
(and leaving it untouched for an empty write, as a seek alone never extends
a file). -/

/-- Write `d` at position `pos` of file `f` (zero-extending as needed). -/
def writeAt (f : List Nat) (pos : Nat) (d : List Nat) : List Nat :=
  if d = [] then f
  else f.take pos ++ List.replicate (pos - f.length) 0 ++ d ++ f.drop (pos + d.length)

/-- The body of `run_pack`'s loop over the traversed files: pack each file,
assign it the running content offset, write its index record at the running
index offset and its payload at `content_start + off`, and advance both
accumulators (`content_off` is a wrapping `u32`).  The state is
`(file, index_off, content_off, pos)` with `pos` the stream position. -/
def pack_loop (compress : List Nat → List Nat) (ftime : List Nat → List Nat)
    (key cs : Nat) :
    List (List Nat × List Nat) → List Nat × Nat × Nat × Nat →
      List Nat × Nat × Nat × Nat
  | [], st => st
  | (name, content) :: rest, (f, index_off, content_off, _) =>
      let (fi, packed) := pack_file compress content name key
      let fi := { fi with off := content_off }
      let e := write_file_entry (ftime name) fi
      let f := writeAt f index_off e
      let index_off := index_off + ((calc_str_size name.length).1 + 0x40)
      let f := writeAt f (cs + content_off) packed
      let pos := cs + content_off + packed.length
      let content_off := (content_off + fi.raw_size) % M32
      pack_loop compress ftime key cs rest (f, index_off, content_off, pos)

/-- `run_pack` from `pack.rs`, over an explicit list of
`(relative name bytes, file content bytes)` pairs in traversal order:
compute `index_size`, write a zero placeholder header, run the loop, then
rewrite the header with the final counts and sizes.  `time16`/`ftime` supply
the platform timestamp blocks. -/
def run_pack (compress : List Nat → List Nat) (ftime : List Nat → List Nat)
    (time16 : List Nat) (files : List (List Nat × List Nat)) (key : Nat) :
    List Nat :=
  let index_size := (files.map (fun p => (calc_str_size p.1.length).1 + 0x40)).sum
  let cs := HEADER_SIZE + index_size
  let (f, _, _, pos) :=
    pack_loop compress ftime key cs files
      (List.replicate HEADER_SIZE 0, HEADER_SIZE, 0, HEADER_SIZE)
  writeAt f 0
    (write_header time16
      ⟨key, files.length % M32, index_size % M32, (pos - cs) % M32⟩)

/-- The extraction loop of `run_extract` with an empty filter set (which
matches every entry), returning the `(name, bytes)` pairs handed to
`write_file`. -/
def extract_loop (decompress : List Nat → Option (List Nat)) (f : List Nat)
    (h : HeadInfo) : List FileInfo → Except Err (List (List Nat × List Nat))
  | [] => .ok []
  | fi :: rest =>
      match extract_file decompress f h fi with
      | .error e => .error (.extractFail fi.name e)
      | .ok content =>
          match extract_loop decompress f h rest with
          | .error e => .error e
          | .ok out => .ok ((fi.name, content) :: out)

/-- `run_extract` from `extract.rs` (with no filters): read the header, read
the index, then extract every entry. -/
def run_extract (decompress : List Nat → Option (List Nat)) (f : List Nat) :
    Except Err (List (List Nat × List Nat)) :=
  match read_header f with
  | .error e => .error (.readHeaderFail e)
  | .ok h =>
      match read_index f h with
      | .error e => .error (.readIndexFail e)
      | .ok entries => extract_loop decompress f h entries

/-! ## Specification views of the pack loop

Loop-free forms of what `run_pack` writes, used to state the layout
invariants: the index region and content region as flat byte lists, and the
entry records with their assigned offsets. -/

/-- The index bytes and content bytes produced for a file list, starting at
running content offset `off` (a wrapping `u32`, as in the loop). -/
def pack_index_content (compress : List Nat → List Nat)
    (ftime : List Nat → List Nat) (key : Nat) :
    List (List Nat × List Nat) → Nat → List Nat × List Nat
  | [], _ => ([], [])
  | (name, content) :: rest, off =>
      let payload := packObfuscate (compress content) key
      let fi : FileInfo := ⟨name, key, off, payload.length % M32, content.length % M32⟩
      let pr := pack_index_content compress ftime key rest
        ((off + payload.length % M32) % M32)
      (write_file_entry (ftime name) fi ++ pr.1, payload ++ pr.2)

/-- The entry records produced for a file list, starting at running content
offset `off`. -/
def pack_entries (compress : List Nat → List Nat) (key : Nat) :
    List (List Nat × List Nat) → Nat → List FileInfo
  | [], _ => []
  | (name, content) :: rest, off =>
      let payload := packObfuscate (compress content) key
      FileInfo.mk name key off (payload.length % M32) (content.length % M32) ::
        pack_entries compress key rest ((off + payload.length % M32) % M32)

/-! ## Lemmas: little-endian round trips -/

lemma le_digits_eq_mod (n : Nat) :
    n % 256 + (n >>> 8) % 256 * 256 + (n >>> 16) % 256 * 65536 +
      (n >>> 24) % 256 * 16777216 = n % M32 := by
  rw [Nat.shiftRight_eq_div_pow, Nat.shiftRight_eq_div_pow, Nat.shiftRight_eq_div_pow]
  show n % 256 + n / 2 ^ 8 % 256 * 256 + n / 2 ^ 16 % 256 * 65536 +
      n / 2 ^ 24 % 256 * 16777216 = n % 2 ^ 32
  omega

lemma readU32_u32le (n : Nat) (r : List Nat) :
    readU32 (u32le n ++ r) = .ok (n % M32, r) := by
  simp only [u32le, List.cons_append, List.nil_append, readU32]
  rw [le_digits_eq_mod]

lemma u32le_length (n : Nat) : (u32le n).length = 4 := rfl

/-- Success of `readU32` characterised through `leAt` and `drop`. -/
lemma readU32_of_le (l : List Nat) (h : 4 ≤ l.length) :
    readU32 l = .ok (leAt l 0, l.drop 4) := by
  match l, h with
  | b0 :: b1 :: b2 :: b3 :: r, _ =>
    simp [readU32, leAt, List.getD]

lemma leAt_drop (l : List Nat) (n k : Nat) : leAt (l.drop n) k = leAt l (n + k) := by
  simp only [leAt, List.getD_eq_getElem?_getD, List.getElem?_drop]
  ring_nf

lemma getD_append_left {l l' : List Nat} {i : Nat} (h : i < l.length) :
    (l ++ l').getD i 0 = l.getD i 0 := by
  simp [List.getD_eq_getElem?_getD, List.getElem?_append_left h]

lemma getD_append_right {l l' : List Nat} {i : Nat} (h : l.length ≤ i) :
    (l ++ l').getD i 0 = l'.getD (i - l.length) 0 := by
  simp [List.getD_eq_getElem?_getD, List.getElem?_append_right h]

lemma leAt_append_right (l l' : List Nat) (k : Nat) :
    leAt (l ++ l') (l.length + k) = leAt l' k := by
  simp only [leAt, Nat.add_assoc]
  rw [getD_append_right (Nat.le_add_right _ _), getD_append_right (Nat.le_add_right _ _),
    getD_append_right (Nat.le_add_right _ _), getD_append_right (Nat.le_add_right _ _)]
  simp [Nat.add_sub_cancel_left]

/-! ## Lemmas: the keystream transform -/

lemma mtXorGo_length (st : MTState) (l : List Nat) :
    (mtXorGo st l).length = l.length := by
  induction l generalizing st with
  | nil => rfl
  | cons b rest ih => simp [mtXorGo, ih]

lemma packObfuscate_length (data : List Nat) (key : Nat) :
    (packObfuscate data key).length = data.length := mtXorGo_length _ _

lemma mtXorGo_involutive (st : MTState) (l : List Nat) :
    mtXorGo st (mtXorGo st l) = l := by
  induction l generalizing st with
  | nil => rfl
  | cons b rest ih =>
    simp only [mtXorGo]
    rw [Nat.xor_assoc, Nat.xor_self, Nat.xor_zero]
    exact congrArg _ (ih _)

/-- De-obfuscation with the same version key inverts obfuscation. -/
lemma deobfuscate_obfuscate (data : List Nat) (key : Nat) :
    extractDeobfuscate (packObfuscate data key) key = data :=
  mtXorGo_involutive _ _

lemma mtXorGo_zipWith (st : MTState) (l : List Nat) :
    mtXorGo st l =
      List.zipWith (fun b w => b ^^^ (w % 256)) l (mtWordsGo st l.length) := by
  induction l generalizing st with
  | nil => rfl
  | cons b rest ih => simp [mtXorGo, mtWordsGo, ih]

lemma mtWordsGo_length (st : MTState) (n : Nat) : (mtWordsGo st n).length = n := by
  induction n generalizing st with
  | zero => rfl
  | succ n ih => simp [mtWordsGo, ih]

/-! ## Lemmas: string block round trip -/

lemma calc5_bounds (L : Nat) (_h : 95 ≤ L) :
    L + 6 ≤ (L + 21) / 16 * 16 ∧ (L + 21) / 16 * 16 ≤ L + 21 := by omega

lemma write_str_block_length (s : List Nat) :
    (write_str_block s).length = (calc_str_size s.length).1 := by
  unfold write_str_block calc_str_size
  by_cases h1 : s.length ≤ 14
  · simp [h1]; omega
  · by_cases h2 : s.length ≤ 30
    · simp [h1, h2]; omega
    · by_cases h3 : s.length ≤ 46
      · simp [h1, h2, h3]; omega
      · by_cases h4 : s.length ≤ 62
        · simp [h1, h2, h3, h4]; omega
        · by_cases h5 : s.length ≤ 94
          · simp [h1, h2, h3, h4, h5]; omega
          · have := calc5_bounds s.length (by omega)
            simp [h1, h2, h3, h4, h5, u32le]
            omega

lemma findIdx?_append_zero (s : List Nat) (t : List Nat) (hs : ∀ b ∈ s, b ≠ 0) :
    ∀ i, (s ++ 0 :: t).findIdx? (· = 0) i = some (i + s.length) := by
  induction s with
  | nil => intro i; simp [List.findIdx?_cons]
  | cons a as ih =>
    intro i
    have ha : a ≠ 0 := hs a (by simp)
    have step : ((a :: as) ++ 0 :: t).findIdx? (· = 0) i
        = (as ++ 0 :: t).findIdx? (· = 0) (i + 1) := by
      simp [List.findIdx?_cons, ha]
    rw [step, ih (fun b hb => hs b (by simp [hb]))]
    congr 1
    simp
    omega

lemma read_c_str_padded (s : List Nat) (pad : Nat) (hs : ∀ b ∈ s, b ≠ 0)
    (hpad : 1 ≤ pad) : read_c_str (s ++ List.replicate pad 0) = .ok s := by
  obtain ⟨p, rfl⟩ : ∃ p, pad = p + 1 := ⟨pad - 1, by omega⟩
  rw [List.replicate_succ]
  unfold read_c_str
  rw [findIdx?_append_zero s _ hs 0]
  simp [List.take_left]

/-- The cursor facts shared by all `read_str` branches: for a buffer
`name ++ zero padding ++ rest` and block payload size `name.length + pad`,
the size check passes, the C-string cut returns the name, and the cursor
advances to `rest`. -/
lemma block_cursor (s : List Nat) (pad : Nat) (r : List Nat) (hpad : 1 ≤ pad)
    (hs : ∀ b ∈ s, b ≠ 0) :
    s.length + pad ≤ (s ++ (List.replicate pad 0 ++ r)).length ∧
    read_c_str ((s ++ (List.replicate pad 0 ++ r)).take (s.length + pad)) = .ok s ∧
    (s ++ (List.replicate pad 0 ++ r)).drop (s.length + pad) = r := by
  have hL : (s ++ List.replicate pad 0).length = s.length + pad := by simp
  refine ⟨by simp, ?_, ?_⟩
  · rw [← List.append_assoc, List.take_left' hL]
    exact read_c_str_padded s pad hs hpad
  · rw [← List.append_assoc, List.drop_left' hL]

/-- Evaluation of `read_str` on a cursor starting with a class byte `≤ 3`. -/
lemma read_str_cons_small (lead : Nat) (hl : lead ≤ 3) (stm : List Nat) :
    read_str (lead :: stm) =
      if (lead + 1) * 16 - 1 ≤ stm.length then
        match read_c_str (stm.take ((lead + 1) * 16 - 1)) with
        | .error e => .error e
        | .ok s => .ok (s, stm.drop ((lead + 1) * 16 - 1))
      else .error .ioFail := by
  unfold read_str readU8
  simp [hl]

/-- Evaluation of `read_str` on a cursor starting with class byte 4. -/
lemma read_str_cons_four (stm : List Nat) :
    read_str (4 :: stm) =
      if 6 * 16 - 1 ≤ stm.length then
        match read_c_str (stm.take (6 * 16 - 1)) with
        | .error e => .error e
        | .ok s => .ok (s, stm.drop (6 * 16 - 1))
      else .error .ioFail := by
  unfold read_str readU8
  simp

/-- Evaluation of `read_str` on a cursor starting with class byte 5 followed
by an explicit little-endian length. -/
lemma read_str_cons_five (n : Nat) (stm : List Nat) :
    read_str (5 :: (u32le n ++ stm)) =
      if n % M32 ≤ stm.length then
        match read_c_str (stm.take (n % M32)) with
        | .error e => .error e
        | .ok s => .ok (s, stm.drop (n % M32))
      else .error .ioFail := by
  unfold read_str readU8
  simp [readU32_u32le]

/-- `read_str` inverts `write_str_block` for any name without an interior
zero byte (and of sane length), leaving the rest of the cursor intact. -/
lemma read_str_write_str (s r : List Nat) (hs : ∀ b ∈ s, b ≠ 0)
    (hlen : s.length + 21 < M32) :
    read_str (write_str_block s ++ r) = .ok (s, r) := by
  by_cases h1 : s.length ≤ 14
  · have hw : write_str_block s ++ r
        = (0:Nat) :: (s ++ (List.replicate (15 - s.length) 0 ++ r)) := by
      have e : 16 - (1 + s.length) = 15 - s.length := by omega
      simp [write_str_block, calc_str_size, h1, e]
    have hb := block_cursor s (15 - s.length) r (by omega) hs
    rw [hw, read_str_cons_small 0 (by omega)]
    rw [show ((0:Nat) + 1) * 16 - 1 = s.length + (15 - s.length) by omega]
    rw [if_pos hb.1, hb.2.1, hb.2.2]
  · by_cases h2 : s.length ≤ 30
    · have hw : write_str_block s ++ r
          = (1:Nat) :: (s ++ (List.replicate (31 - s.length) 0 ++ r)) := by
        have e : 32 - (1 + s.length) = 31 - s.length := by omega
        simp [write_str_block, calc_str_size, h1, h2, e]
      have hb := block_cursor s (31 - s.length) r (by omega) hs
      rw [hw, read_str_cons_small 1 (by omega)]
      rw [show ((1:Nat) + 1) * 16 - 1 = s.length + (31 - s.length) by omega]
      rw [if_pos hb.1, hb.2.1, hb.2.2]
    · by_cases h3 : s.length ≤ 46
      · have hw : write_str_block s ++ r
            = (2:Nat) :: (s ++ (List.replicate (47 - s.length) 0 ++ r)) := by
          have e : 48 - (1 + s.length) = 47 - s.length := by omega
          simp [write_str_block, calc_str_size, h1, h2, h3, e]
        have hb := block_cursor s (47 - s.length) r (by omega) hs
        rw [hw, read_str_cons_small 2 (by omega)]
        rw [show ((2:Nat) + 1) * 16 - 1 = s.length + (47 - s.length) by omega]
        rw [if_pos hb.1, hb.2.1, hb.2.2]
      · by_cases h4 : s.length ≤ 62
        · have hw : write_str_block s ++ r
              = (3:Nat) :: (s ++ (List.replicate (63 - s.length) 0 ++ r)) := by
            have e : 64 - (1 + s.length) = 63 - s.length := by omega
            simp [write_str_block, calc_str_size, h1, h2, h3, h4, e]
          have hb := block_cursor s (63 - s.length) r (by omega) hs
          rw [hw, read_str_cons_small 3 (by omega)]
          rw [show ((3:Nat) + 1) * 16 - 1 = s.length + (63 - s.length) by omega]
          rw [if_pos hb.1, hb.2.1, hb.2.2]
        · by_cases h5 : s.length ≤ 94
          · have hw : write_str_block s ++ r
                = (4:Nat) :: (s ++ (List.replicate (95 - s.length) 0 ++ r)) := by
              have e : 96 - (1 + s.length) = 95 - s.length := by omega
              simp [write_str_block, calc_str_size, h1, h2, h3, h4, h5, e]
            have hb := block_cursor s (95 - s.length) r (by omega) hs
            rw [hw, read_str_cons_four]
            rw [show (6:Nat) * 16 - 1 = s.length + (95 - s.length) by omega]
            rw [if_pos hb.1, hb.2.1, hb.2.2]
          · have hc := calc5_bounds s.length (by omega)
            have hw : write_str_block s ++ r
                = (5:Nat) :: (u32le ((s.length + 21) / 16 * 16 - 5) ++
                    (s ++ (List.replicate ((s.length + 21) / 16 * 16 - 5 - s.length) 0
                      ++ r))) := by
              have e : (s.length + 21) / 16 * 16 - (5 + s.length)
                  = (s.length + 21) / 16 * 16 - 5 - s.length := by omega
              simp [write_str_block, calc_str_size, h1, h2, h3, h4, h5, u32le, e]
            have hb := block_cursor s ((s.length + 21) / 16 * 16 - 5 - s.length) r
              (by omega) hs
            rw [hw, read_str_cons_five]
            rw [Nat.mod_eq_of_lt (by omega)]
            rw [show s.length + ((s.length + 21) / 16 * 16 - 5 - s.length)
                = (s.length + 21) / 16 * 16 - 5 by omega] at hb
            rw [if_pos hb.1, hb.2.1, hb.2.2]

/-! ## Lemmas: the seek/write file model -/

lemma writeAt_at_end (f d : List Nat) : writeAt f f.length d = f ++ d := by
  unfold writeAt
  by_cases hd : d = []
  · simp [hd]
  · rw [if_neg hd, List.take_length, Nat.sub_self,
      List.drop_eq_nil_of_le (Nat.le_add_right _ _)]
    simp

lemma writeAt_extend (f : List Nat) (pos : Nat) (d : List Nat)
    (h : f.length ≤ pos) (hd : d ≠ []) :
    writeAt f pos d = f ++ List.replicate (pos - f.length) 0 ++ d := by
  unfold writeAt
  rw [if_neg hd, List.take_of_length_le h,
    List.drop_eq_nil_of_le (le_trans h (Nat.le_add_right _ _))]
  simp

lemma writeAt_mid (A B d : List Nat) :
    writeAt (A ++ B) A.length d = A ++ d ++ B.drop d.length := by
  by_cases hd : d = []
  · simp [hd, writeAt]
  · unfold writeAt
    rw [if_neg hd, List.take_left,
      show A.length - (A ++ B).length = 0 by simp,
      show A.length + d.length = A.length + d.length by rfl]
    rw [show (A ++ B).drop (A.length + d.length) = B.drop d.length by
      rw [← List.drop_drop]; simp [List.drop_left]]
    simp

/-! ## Lemmas: header round trip -/

lemma write_header_length (t16 : List Nat) (h : HeadInfo) (ht : t16.length = 16) :
    (write_header t16 h).length = 0x220 := by
  simp [write_header, dataTag, u32le, ht]

/-- Reading back a written header (with anything appended after it). -/
lemma read_header_write_header (t16 : List Nat) (h : HeadInfo) (r : List Nat)
    (ht : t16.length = 16) :
    read_header (write_header t16 h ++ r) =
      .ok ⟨h.file_ver % M32, h.file_cnt % M32, h.index_size % M32,
        h.content_size % M32⟩ := by
  have hmid : ((t16 ++ dataTag) ++ List.replicate (0x1e0 - 5) 0).length = 0x1f0 := by
    simp [dataTag, ht]
  have e1 : (0x4b434150 : Nat) % M32 = 0x4b434150 := by norm_num [M32]
  have e2 : (0x102 : Nat) % M32 = 0x102 := by norm_num [M32]
  unfold read_header
  rw [write_header]
  simp only [List.append_assoc]
  simp only [readU32_u32le, e1, e2]
  rw [if_neg (by simp)]
  rw [← List.append_assoc t16, ← List.append_assoc (t16 ++ dataTag),
    List.drop_left' hmid]
  simp only [readU32_u32le]
  rw [if_neg (by simp)]
  rw [List.drop_left' (u32le_length 0)]
  simp only [readU32_u32le]

/-! ## Lemmas: index record round trip -/

lemma write_file_entry_length (t40 : List Nat) (fi : FileInfo)
    (ht : t40.length = 40) :
    (write_file_entry t40 fi).length = (calc_str_size fi.name.length).1 + 0x40 := by
  simp [write_file_entry, u32le, ht, write_str_block_length]

/-- Reading one index record off a written entry. -/
lemma read_index_go_entry (t40 : List Nat) (fi : FileInfo) (buf : List Nat)
    (n : Nat) (ht : t40.length = 40) (hs : ∀ b ∈ fi.name, b ≠ 0)
    (hlen : fi.name.length + 21 < M32) :
    read_index_go (write_file_entry t40 fi ++ buf) (n + 1) =
      match read_index_go buf n with
      | .error e => .error e
      | .ok rest =>
          .ok (⟨fi.name, fi.version % M32, fi.off % M32, fi.raw_size % M32,
            fi.uncompr_size % M32⟩ :: rest) := by
  have h44 : ((u32le 1 ++ t40)).length = 0x2c := by simp [u32le, ht]
  conv_lhs => unfold read_index_go
  rw [write_file_entry]
  simp only [List.append_assoc]
  rw [read_str_write_str fi.name _ hs hlen]
  simp only [readU32_u32le]
  rw [List.drop_left' (u32le_length 0)]
  simp only [readU32_u32le]
  rw [← List.append_assoc (u32le 1), List.drop_left' h44]

/-! ## Lemmas: the pack loop layout -/

lemma mod_collapse (a b : Nat) (h : a + b < M32) : (a + b % M32) % M32 = a + b := by
  have hb : b % M32 = b := Nat.mod_eq_of_lt (by omega)
  rw [hb]
  exact Nat.mod_eq_of_lt h

lemma lenZI (I : List Nat) :
    (List.replicate 0x220 (0:Nat) ++ I).length = 0x220 + I.length := by
  rw [List.length_append, List.length_replicate]

/-- The loop invariant of `run_pack`: starting from a file that is the
placeholder header, the index records written so far (`I`), the zero gap left
for the remaining records, and the content written so far (`C`), the loop
appends exactly the specification index/content bytes. -/
lemma pack_loop_eq (compress : List Nat → List Nat) (ftime : List Nat → List Nat)
    (key : Nat) (Hft : ∀ n, (ftime n).length = 40) :
    ∀ (files : List (List Nat × List Nat)) (I C : List Nat) (pos cs : Nat),
      (∀ p ∈ files, compress p.2 ≠ []) →
      C.length + (files.map (fun p => (compress p.2).length)).sum < M32 →
      cs = 0x220 + I.length +
        (files.map (fun p => (calc_str_size p.1.length).1 + 0x40)).sum →
      pack_loop compress ftime key cs files
          (List.replicate 0x220 0 ++ I ++
             List.replicate
               ((files.map (fun p => (calc_str_size p.1.length).1 + 0x40)).sum) 0 ++ C,
           0x220 + I.length, C.length, pos) =
        (List.replicate 0x220 0 ++ I ++
           (pack_index_content compress ftime key files C.length).1 ++ C ++
           (pack_index_content compress ftime key files C.length).2,
         cs, C.length + (files.map (fun p => (compress p.2).length)).sum,
         if files.isEmpty then pos
         else cs + C.length + (files.map (fun p => (compress p.2).length)).sum) := by
  intro files
  induction files with
  | nil =>
    intro I C pos cs hne hsum hcs
    simp [pack_loop, pack_index_content, hcs]
  | cons p rest ih =>
    obtain ⟨name, content⟩ := p
    intro I C pos cs hne hsum hcs
    simp only [List.map_cons, List.sum_cons] at hsum hcs ⊢
    simp only [pack_loop, pack_file]
    set P := packObfuscate (compress content) key with hP
    set FI : FileInfo :=
      ⟨name, key, C.length, P.length % M32, content.length % M32⟩ with hFI
    set E := write_file_entry (ftime name) FI with hE
    set SZ := (rest.map (fun p => (calc_str_size p.1.length).1 + 0x40)).sum with hSZ
    set LEN := (rest.map (fun p => (compress p.2).length)).sum with hLEN
    have hplen : P.length = (compress content).length := packObfuscate_length _ _
    have hesz : E.length = (calc_str_size name.length).1 + 0x40 := by
      rw [hE]
      exact write_file_entry_length _ _ (Hft name)
    have hcoff : (C.length + P.length % M32) % M32 = C.length + P.length := by
      apply mod_collapse
      omega
    rw [show List.replicate 0x220 (0:Nat) ++ I ++
          List.replicate ((calc_str_size name.length).1 + 0x40 + SZ) 0 ++ C
        = (List.replicate 0x220 (0:Nat) ++ I) ++
          (List.replicate ((calc_str_size name.length).1 + 0x40 + SZ) 0 ++ C) by
      simp [List.append_assoc]]
    rw [show 0x220 + I.length = (List.replicate 0x220 (0:Nat) ++ I).length from
      (lenZI I).symm]
    rw [writeAt_mid]
    rw [hesz]
    rw [List.drop_append_of_le_length
      (by rw [List.length_replicate]; omega)]
    rw [List.drop_replicate]
    rw [show (calc_str_size name.length).1 + 0x40 + SZ -
        ((calc_str_size name.length).1 + 0x40) = SZ by omega]
    rw [show cs + C.length
        = ((List.replicate 0x220 (0:Nat) ++ I) ++ E ++
            (List.replicate SZ 0 ++ C)).length by
      simp only [List.length_append, List.length_replicate, lenZI, hesz]
      omega]
    rw [writeAt_at_end]
    rw [hcoff]
    rw [show C.length + P.length = (C ++ P).length from (List.length_append C P).symm]
    rw [show (List.replicate 0x220 (0:Nat) ++ I).length +
          ((calc_str_size name.length).1 + 0x40)
        = 0x220 + (I ++ E).length by
      simp only [List.length_append, List.length_replicate, hesz]
      omega]
    rw [show (List.replicate 0x220 (0:Nat) ++ I) ++ E ++ (List.replicate SZ 0 ++ C) ++ P
        = List.replicate 0x220 (0:Nat) ++ (I ++ E) ++ List.replicate SZ 0 ++ (C ++ P) by
      simp [List.append_assoc]]
    rw [ih (I ++ E) (C ++ P) _ cs
      (fun q hq => hne q (List.mem_cons_of_mem _ hq))
      (by simp only [List.length_append]
          omega)
      (by simp only [List.length_append, hesz]
          omega)]
    conv_rhs => rw [pack_index_content]
    simp only [← hP, ← hFI, ← hE, ← hSZ, ← hLEN, hcoff]
    rw [show C.length + P.length = (C ++ P).length from (List.length_append C P).symm]
    simp only [Prod.mk.injEq]
    refine ⟨by simp [List.append_assoc], ?_, ?_, ?_⟩
    · trivial
    · simp only [List.length_append, hplen]
      omega
    · cases hre : rest.isEmpty
      · simp only [List.isEmpty_cons, Bool.false_eq_true, if_false]
        simp only [List.length_append, List.length_replicate, hplen, hesz]
        omega
      · have : rest = [] := List.isEmpty_iff.mp hre
        subst this
        simp only [List.isEmpty_cons, Bool.false_eq_true, if_false, if_true]
        simp only [hLEN, List.map_nil, List.sum_nil, List.length_append,
          List.length_replicate, hplen, hesz]
        omega

lemma writeAt_zero (f d : List Nat) : writeAt f 0 d = d ++ f.drop d.length := by
  simpa using writeAt_mid [] f d

/-- What `run_pack` produces: the header, the index region, and the content
region, concatenated. -/
lemma run_pack_eq (compress : List Nat → List Nat) (ftime : List Nat → List Nat)
    (time16 : List Nat) (files : List (List Nat × List Nat)) (key : Nat)
    (Ht16 : time16.length = 16) (Hft : ∀ n, (ftime n).length = 40)
    (Hne : ∀ p ∈ files, compress p.2 ≠ [])
    (Hsum : (files.map (fun p => (compress p.2).length)).sum < M32) :
    run_pack compress ftime time16 files key =
      write_header time16
        ⟨key, files.length % M32,
         (files.map (fun p => (calc_str_size p.1.length).1 + 0x40)).sum % M32,
         (files.map (fun p => (compress p.2).length)).sum % M32⟩ ++
      (pack_index_content compress ftime key files 0).1 ++
      (pack_index_content compress ftime key files 0).2 := by
  rcases files with _ | ⟨⟨name, content⟩, rest⟩
  · unfold run_pack
    simp only [List.map_nil, List.sum_nil, List.length_nil, pack_loop,
      pack_index_content, HEADER_SIZE]
    rw [writeAt_zero]
    rw [write_header_length _ _ Ht16]
    rw [List.drop_eq_nil_of_le (by rw [List.length_replicate])]
    simp
  · simp only [List.map_cons, List.sum_cons] at Hsum
    unfold run_pack
    simp only [HEADER_SIZE, List.map_cons, List.sum_cons]
    simp only [pack_loop, pack_file]
    set P := packObfuscate (compress content) key with hP
    set FI : FileInfo :=
      ⟨name, key, 0, P.length % M32, content.length % M32⟩ with hFI
    set E := write_file_entry (ftime name) FI with hE
    have hplen : P.length = (compress content).length := packObfuscate_length _ _
    have hesz : E.length = (calc_str_size name.length).1 + 0x40 := by
      rw [hE]
      exact write_file_entry_length _ _ (Hft name)
    have hPne : P ≠ [] := by
      rw [hP]
      intro hcon
      have := congrArg List.length hcon
      rw [packObfuscate_length] at this
      exact Hne (name, content) (by simp) (List.length_eq_zero.mp this)
    rw [show writeAt (List.replicate 544 (0:Nat)) 544 E
        = List.replicate 544 (0:Nat) ++ E by
      have h := writeAt_at_end (List.replicate 544 (0:Nat)) E
      rwa [List.length_replicate] at h]
    simp only [Nat.add_zero]
    rw [show writeAt (List.replicate 544 (0:Nat) ++ E)
          (544 + ((calc_str_size name.length).1 + 0x40 +
            (rest.map (fun p => (calc_str_size p.1.length).1 + 0x40)).sum)) P
        = List.replicate 544 (0:Nat) ++ E ++
          List.replicate
            ((rest.map (fun p => (calc_str_size p.1.length).1 + 0x40)).sum) 0 ++ P by
      rw [writeAt_extend _ _ _
        (by simp only [List.length_append, List.length_replicate, hesz]; omega) hPne]
      rw [show 544 + ((calc_str_size name.length).1 + 0x40 +
            (rest.map (fun p => (calc_str_size p.1.length).1 + 0x40)).sum) -
          (List.replicate 544 (0:Nat) ++ E).length
        = (rest.map (fun p => (calc_str_size p.1.length).1 + 0x40)).sum by
        simp only [List.length_append, List.length_replicate, hesz]
        omega]]
    rw [show (0 + P.length % M32) % M32 = P.length by
      have := mod_collapse 0 P.length (by rw [hplen]; omega)
      simpa using this]
    rw [show 544 + ((calc_str_size name.length).1 + 0x40) = 0x220 + E.length by
      rw [hesz]]
    rw [show (544:Nat) + ((calc_str_size name.length).1 + 0x40 +
          (rest.map (fun p => (calc_str_size p.1.length).1 + 0x40)).sum)
        = 0x220 + E.length +
          (rest.map (fun p => (calc_str_size p.1.length).1 + 0x40)).sum by
      rw [hesz]
      omega]
    rw [show List.replicate 544 (0:Nat) ++ E = List.replicate 0x220 (0:Nat) ++ E
      from rfl]
    rw [show P.length = ([] ++ P : List Nat).length by simp]
    rw [show List.replicate 0x220 (0:Nat) ++ E ++
          List.replicate
            ((rest.map (fun p => (calc_str_size p.1.length).1 + 0x40)).sum) 0 ++ P
        = List.replicate 0x220 (0:Nat) ++ E ++
          List.replicate
            ((rest.map (fun p => (calc_str_size p.1.length).1 + 0x40)).sum) 0 ++
          ([] ++ P) by simp]
    rw [pack_loop_eq compress ftime key Hft rest E ([] ++ P) _ _
      (fun q hq => Hne q (List.mem_cons_of_mem _ hq))
      (by simp only [List.nil_append, List.length_append, hplen,
            List.map_cons, List.sum_cons] at Hsum ⊢
          omega)
      rfl]
    simp only [List.nil_append]
    conv_rhs => rw [pack_index_content]
    simp only [← hP, ← hFI, ← hE]
    rw [show (0 + P.length % M32) % M32 = P.length by
      have := mod_collapse 0 P.length (by rw [hplen]; omega)
      simpa using this]
    rw [writeAt_zero]
    rw [write_header_length _ _ Ht16]
    rw [show (List.replicate 0x220 (0:Nat) ++ E ++
          (pack_index_content compress ftime key rest P.length).1 ++ P ++
          (pack_index_content compress ftime key rest P.length).2).drop 0x220
        = E ++ (pack_index_content compress ftime key rest P.length).1 ++ P ++
          (pack_index_content compress ftime key rest P.length).2 by
      simp only [List.append_assoc]
      rw [List.drop_left' (List.length_replicate 0x220 0)]]
    have hposc : (if rest.isEmpty then 0x220 + E.length +
          (rest.map (fun p => (calc_str_size p.1.length).1 + 0x40)).sum + P.length
        else 0x220 + E.length +
          (rest.map (fun p => (calc_str_size p.1.length).1 + 0x40)).sum +
          P.length +
          (rest.map (fun p => (compress p.2).length)).sum) -
        (0x220 + E.length +
          (rest.map (fun p => (calc_str_size p.1.length).1 + 0x40)).sum)
        = P.length + (rest.map (fun p => (compress p.2).length)).sum := by
      cases hre : rest.isEmpty
      · simp only [Bool.false_eq_true, if_false]
        omega
      · have : rest = [] := List.isEmpty_iff.mp hre
        subst this
        simp only [if_true, List.map_nil, List.sum_nil]
        omega
    rw [hposc]
    rw [show P.length + (rest.map (fun p => (compress p.2).length)).sum
        = (compress content).length +
          (rest.map (fun p => (compress p.2).length)).sum by rw [hplen]]
    simp [List.append_assoc]

/-! ## Lemmas: the specification views -/

lemma pic_snd (compress : List Nat → List Nat) (ftime : List Nat → List Nat)
    (key : Nat) :
    ∀ (files : List (List Nat × List Nat)) (off : Nat),
      (pack_index_content compress ftime key files off).2
        = (files.map (fun p => packObfuscate (compress p.2) key)).flatten := by
  intro files
  induction files with
  | nil => intro off; rfl
  | cons p rest ih =>
    obtain ⟨name, content⟩ := p
    intro off
    simp [pack_index_content, ih]

lemma pic_fst_length (compress : List Nat → List Nat) (ftime : List Nat → List Nat)
    (key : Nat) (Hft : ∀ n, (ftime n).length = 40) :
    ∀ (files : List (List Nat × List Nat)) (off : Nat),
      (pack_index_content compress ftime key files off).1.length
        = (files.map (fun p => (calc_str_size p.1.length).1 + 0x40)).sum := by
  intro files
  induction files with
  | nil => intro off; rfl
  | cons p rest ih =>
    obtain ⟨name, content⟩ := p
    intro off
    simp only [pack_index_content, List.length_append, List.map_cons, List.sum_cons, ih]
    rw [write_file_entry_length _ _ (Hft name)]

lemma pic_snd_length (compress : List Nat → List Nat) (ftime : List Nat → List Nat)
    (key : Nat) :
    ∀ (files : List (List Nat × List Nat)) (off : Nat),
      (pack_index_content compress ftime key files off).2.length
        = (files.map (fun p => (compress p.2).length)).sum := by
  intro files
  induction files with
  | nil => intro off; rfl
  | cons p rest ih =>
    obtain ⟨name, content⟩ := p
    intro off
    simp only [pack_index_content, List.length_append, List.map_cons, List.sum_cons,
      ih, packObfuscate_length]

lemma pack_entries_length (compress : List Nat → List Nat) (key : Nat) :
    ∀ (files : List (List Nat × List Nat)) (off : Nat),
      (pack_entries compress key files off).length = files.length := by
  intro files
  induction files with
  | nil => intro off; rfl
  | cons p rest ih =>
    obtain ⟨name, content⟩ := p
    intro off
    simp [pack_entries, ih]

lemma pack_entries_raw (compress : List Nat → List Nat) (key : Nat) :
    ∀ (files : List (List Nat × List Nat)) (off : Nat),
      (files.map (fun p => (compress p.2).length)).sum < M32 →
      (pack_entries compress key files off).map FileInfo.raw_size
        = files.map (fun p => (compress p.2).length) := by
  intro files
  induction files with
  | nil => intro off _; rfl
  | cons p rest ih =>
    obtain ⟨name, content⟩ := p
    intro off h
    simp only [List.map_cons, List.sum_cons] at h
    simp only [pack_entries, List.map_cons]
    rw [List.cons_eq_cons]
    constructor
    · rw [packObfuscate_length]
      exact Nat.mod_eq_of_lt (by omega)
    · exact ih _ (by omega)

lemma pack_entries_off (compress : List Nat → List Nat) (key : Nat) :
    ∀ (files : List (List Nat × List Nat)) (off0 : Nat),
      off0 + (files.map (fun p => (compress p.2).length)).sum < M32 →
      ∀ i, i < files.length →
        ((pack_entries compress key files off0).getD i ⟨[], 0, 0, 0, 0⟩).off
          = off0 + ((files.take i).map (fun p => (compress p.2).length)).sum := by
  intro files
  induction files with
  | nil => intro off0 _ i hi; simp at hi
  | cons p rest ih =>
    obtain ⟨name, content⟩ := p
    intro off0 h i hi
    simp only [List.map_cons, List.sum_cons] at h
    cases i with
    | zero => simp [pack_entries]
    | succ i =>
      simp only [pack_entries, List.getD_cons_succ, List.take_succ_cons,
        List.map_cons, List.sum_cons]
      rw [show (off0 + (packObfuscate (compress content) key).length % M32) % M32
          = off0 + (compress content).length by
        rw [packObfuscate_length]
        exact mod_collapse _ _ (by omega)]
      rw [ih _ (by omega) i (by simpa using hi)]
      omega

lemma flatten_getD (ls : List (List Nat)) :
    ∀ i j, j < (ls.getD i []).length →
      ls.flatten.getD (((ls.take i).map List.length).sum + j) 0
        = (ls.getD i []).getD j 0 := by
  induction ls with
  | nil => intro i j h; simp at h
  | cons a rest ih =>
    intro i j h
    cases i with
    | zero =>
      simp only [List.take_zero, List.map_nil, List.sum_nil, Nat.zero_add,
        List.getD_cons_zero] at h ⊢
      rw [List.flatten_cons]
      exact getD_append_left h
    | succ i =>
      simp only [List.take_succ_cons, List.map_cons, List.sum_cons,
        List.getD_cons_succ] at h ⊢
      rw [List.flatten_cons]
      rw [Nat.add_assoc]
      rw [getD_append_right (Nat.le_add_right _ _)]
      rw [Nat.add_sub_cancel_left]
      exact ih i j h

/-! ## Lemmas: misc byte-level facts -/

lemma leAt_u32le (n : Nat) (r : List Nat) : leAt (u32le n ++ r) 0 = n % M32 := by
  have : u32le n ++ r
      = n % 256 :: ((n >>> 8) % 256 :: ((n >>> 16) % 256 :: ((n >>> 24) % 256 :: r))) := by
    simp [u32le]
  rw [this]
  show n % 256 + (n >>> 8) % 256 * 256 + (n >>> 16) % 256 * 65536 +
      (n >>> 24) % 256 * 16777216 = n % M32
  exact le_digits_eq_mod n

lemma leAt_cons (a : Nat) (l : List Nat) (k : Nat) :
    leAt (a :: l) (k + 1) = leAt l k := by
  simp only [leAt, List.getD_cons_succ]

lemma getD_replicate_zero (n i : Nat) : (List.replicate n (0:Nat)).getD i 0 = 0 := by
  simp only [List.getD_eq_getElem?_getD, List.getElem?_replicate]
  split <;> rfl

lemma readU32_ok (l : List Nat) (v : Nat) (r : List Nat)
    (h : readU32 l = .ok (v, r)) : v = leAt l 0 ∧ r = l.drop 4 := by
  rcases l with _ | ⟨b0, _ | ⟨b1, _ | ⟨b2, _ | ⟨b3, t⟩⟩⟩⟩ <;>
    simp only [readU32, Except.ok.injEq, Prod.mk.injEq, reduceCtorEq] at h
  refine ⟨?_, ?_⟩
  · rw [← h.1]
    rfl
  · rw [← h.2]
    rfl

/-! ## The claims -/

/-- C2: the obfuscation keystream of `pack_file` and the de-obfuscation
keystream of `extract_file` are the same function of the version key; the
generator is seeded with `(version << 7) XOR 0xA9C36DE1` (u32 arithmetic),
and for every obfuscated byte exactly one full 32-bit word is drawn from the
MT19937 generator, of which only the low 8 bits are XORed into the byte. -/
theorem C2_keystream (data : List Nat) (key : Nat) :
    packObfuscate data key = extractDeobfuscate data key ∧
    packObfuscate data key =
      List.zipWith (fun b w => b ^^^ (w % 256)) data
        (mtWords (((key <<< 7) % M32) ^^^ 0xa9c36de1) data.length) ∧
    (mtWords (((key <<< 7) % M32) ^^^ 0xa9c36de1) data.length).length
      = data.length :=
  ⟨rfl, mtXorGo_zipWith _ _, mtWordsGo_length _ _⟩

/-- C9 counterexample: the version keys 17 and 32 are different, and their
derived generator seeds are different, yet obfuscating the one-byte buffer
`[0]` with the two keys yields the same output (the low bytes of the first
generated words coincide). -/
theorem C9_cex :
    packObfuscate [0] 17 = packObfuscate [0] 32 ∧ (17 : Nat) ≠ 32 ∧
    ((17 <<< 7) % M32) ^^^ 0xa9c36de1 ≠ ((32 <<< 7) % M32) ^^^ 0xa9c36de1 :=
  ⟨by decide, by decide, by decide⟩

/-- C9 (amended): obfuscating the same non-empty data with two different
seeds does not always yield different outputs: the keystream depends on the
version key only through its low 25 bits, because the derived seed is
`(key << 7) mod 2^32` XOR a constant, so keys congruent modulo 2^25 produce
identical outputs on every buffer — and even keys with different derived
seeds can collide on short buffers, as only the low 8 bits of each word are
consumed. -/
theorem C9_key_periodicity (data : List Nat) (key : Nat) :
    packObfuscate data key = packObfuscate data (key % 2 ^ 25) := by
  have hseed : (key <<< 7) % M32 = ((key % 2 ^ 25) <<< 7) % M32 := by
    rw [Nat.shiftLeft_eq, Nat.shiftLeft_eq]
    show key * 2 ^ 7 % 2 ^ 32 = key % 2 ^ 25 * 2 ^ 7 % 2 ^ 32
    omega
  unfold packObfuscate
  rw [hseed]

/-- C10: string-block decoding rejects every leading class byte outside
0..=5 — for any cursor whose first byte is 6 or greater, `read_str` returns
the format error, whatever the remaining bytes are (they are never
examined). -/
theorem C10_read_str_rejects_class (b : Nat) (rest : List Nat) (h : 6 ≤ b) :
    read_str (b :: rest) = .error .wrongFormat := by
  unfold read_str readU8
  simp [show ¬ b ≤ 3 by omega, show b ≠ 4 by omega, show b ≠ 5 by omega]

/-- Witness for C10 at the concrete class byte 6. -/
theorem C10_witness : read_str (6 :: [1, 2, 3]) = .error .wrongFormat :=
  C10_read_str_rejects_class 6 [1, 2, 3] (by decide)

/-- C3 counterexample: for a name of byte length 107 the encoded block is
128 bytes long, although 112 is already a multiple of 16 that is ≥ 107+5 —
so for lengths with L+5 ≡ 0 (mod 16) the class-5 block size is not "the next
multiple of 16 that is ≥ L+5". -/
theorem C3_cex :
    (write_str_block (List.replicate 107 97)).length = 128 ∧
    112 % 16 = 0 ∧ 107 + 5 ≤ 112 ∧ 112 < 128 := by decide

/-- C3 (amended): the encoded string block's total length matches the
length-class table — L in 0–14 gives a 16-byte block (class 0), 15–30 gives
32 (class 1), 31–46 gives 48 (class 2), 47–62 gives 64 (class 3), 63–94
gives 96 (class 4) — and L ≥ 95 gives the next multiple of 16 that is
≥ L+6 (equivalently, strictly greater than L+5), with an explicit 4-byte
length field equal to blockSize - 5 (class 5). -/
theorem C3_str_block_table (s : List Nat) :
    (write_str_block s).length = (calc_str_size s.length).1 ∧
    (s.length ≤ 14 → calc_str_size s.length = (16, 0)) ∧
    (15 ≤ s.length → s.length ≤ 30 → calc_str_size s.length = (32, 1)) ∧
    (31 ≤ s.length → s.length ≤ 46 → calc_str_size s.length = (48, 2)) ∧
    (47 ≤ s.length → s.length ≤ 62 → calc_str_size s.length = (64, 3)) ∧
    (63 ≤ s.length → s.length ≤ 94 → calc_str_size s.length = (96, 4)) ∧
    (95 ≤ s.length →
      (calc_str_size s.length).2 = 5 ∧
      (calc_str_size s.length).1 % 16 = 0 ∧
      s.length + 6 ≤ (calc_str_size s.length).1 ∧
      (calc_str_size s.length).1 < s.length + 6 + 16 ∧
      leAt (write_str_block s) 1 = ((calc_str_size s.length).1 - 5) % M32) := by
  refine ⟨write_str_block_length s, ?_, ?_, ?_, ?_, ?_, ?_⟩
  · intro h1
    simp [calc_str_size, h1]
  · intro h1 h2
    simp [calc_str_size, show ¬ s.length ≤ 14 by omega, h2]
  · intro h1 h2
    simp [calc_str_size, show ¬ s.length ≤ 14 by omega,
      show ¬ s.length ≤ 30 by omega, h2]
  · intro h1 h2
    simp [calc_str_size, show ¬ s.length ≤ 14 by omega,
      show ¬ s.length ≤ 30 by omega, show ¬ s.length ≤ 46 by omega, h2]
  · intro h1 h2
    simp [calc_str_size, show ¬ s.length ≤ 14 by omega,
      show ¬ s.length ≤ 30 by omega, show ¬ s.length ≤ 46 by omega,
      show ¬ s.length ≤ 62 by omega, h2]
  · intro h95
    have hc := calc5_bounds s.length h95
    have hcal : calc_str_size s.length = ((s.length + 21) / 16 * 16, 5) := by
      simp [calc_str_size, show ¬ s.length ≤ 14 by omega,
        show ¬ s.length ≤ 30 by omega, show ¬ s.length ≤ 46 by omega,
        show ¬ s.length ≤ 62 by omega, show ¬ s.length ≤ 94 by omega]
    rw [hcal]
    refine ⟨rfl, Nat.mul_mod_left _ _, by omega, by omega, ?_⟩
    have hw : write_str_block s
        = 5 :: (u32le ((s.length + 21) / 16 * 16 - 5) ++
            (s ++ List.replicate ((s.length + 21) / 16 * 16 - 5 - s.length) 0)) := by
      have e : (s.length + 21) / 16 * 16 - (5 + s.length)
          = (s.length + 21) / 16 * 16 - 5 - s.length := by omega
      simp [write_str_block, hcal, u32le, e]
    rw [hw, show (1:Nat) = 0 + 1 from rfl, leAt_cons, leAt_u32le]

/-- Witness for C3 at the concrete length 107 (class 5). -/
theorem C3_witness :
    (write_str_block (List.replicate 107 97)).length
      = (calc_str_size 107).1 ∧
    (calc_str_size 107).1 % 16 = 0 ∧
    107 + 6 ≤ (calc_str_size 107).1 ∧ (calc_str_size 107).1 < 107 + 6 + 16 := by
  have h := C3_str_block_table (List.replicate 107 97)
  simp only [List.length_replicate] at h
  have h5 := h.2.2.2.2.2.2 (by omega)
  exact ⟨h.1, h5.2.1, h5.2.2.1, h5.2.2.2.1⟩

/-- C8 counterexample: a 14-byte name starting with a zero byte (length 14
is in the claimed length set) does not survive the round trip — decoding
truncates at the first zero byte and returns the empty name. -/
theorem C8_cex :
    read_str (write_str_block (0 :: List.replicate 13 97)) = .ok ([], []) ∧
    (0 :: List.replicate 13 97) ≠ ([] : List Nat) ∧
    (0 :: List.replicate 13 97).length = 14 := by decide

/-- C8 (amended): for every name containing no zero byte whose byte length
is one of {0,14,15,30,31,46,47,62,63,94,95,200}, decoding the encoded
string block returns exactly the original name. -/
theorem C8_round_trip (s : List Nat) (hs : ∀ b ∈ s, b ≠ 0)
    (hl : s.length ∈ [0, 14, 15, 30, 31, 46, 47, 62, 63, 94, 95, 200]) :
    read_str (write_str_block s) = .ok (s, []) := by
  have hle : s.length ≤ 200 := by
    simp only [List.mem_cons, List.not_mem_nil, or_false] at hl
    rcases hl with h|h|h|h|h|h|h|h|h|h|h|h <;> omega
  have hM : (221:Nat) < M32 := by norm_num [M32]
  have h := read_str_write_str s [] hs (by omega)
  simpa using h

/-- Witness for C8 at the concrete length 14. -/
theorem C8_witness :
    read_str (write_str_block (List.replicate 14 97))
      = .ok (List.replicate 14 97, []) :=
  C8_round_trip _ (by decide) (by decide)

/-- C4 counterexample: in a written header with fileCount 1, the four bytes
at offset 0x1F0 are zero padding (not the repeated fileCount), which sits at
offset 0x200 instead. -/
theorem C4_cex :
    leAt (write_header (List.replicate 16 0) ⟨7, 1, 2, 3⟩) 0x1f0 = 0 ∧
    leAt (write_header (List.replicate 16 0) ⟨7, 1, 2, 3⟩) 0x200 = 1 ∧
    (0 : Nat) ≠ 1 := by decide

/-- C4 (amended): the zero padding after the literal `"data\"` tag (which
occupies bytes 0x20–0x24) extends up to offset 0x200, the repeated fileCount
redundancy field sits at offset 0x200 (the reader seeks 0x1F0 forward from
offset 0x10, so it consults offset 0x200, not 0x1F0), and the whole header
occupies exactly 0x220 bytes. -/
theorem C4_header_layout (h : HeadInfo) (t16 : List Nat) (ht : t16.length = 16) :
    (write_header t16 h).length = 0x220 ∧
    ((write_header t16 h).drop 0x20).take 5 = dataTag ∧
    (∀ i, 0x25 ≤ i → i < 0x200 → (write_header t16 h).getD i 0 = 0) ∧
    leAt (write_header t16 h) 0x200 = h.file_cnt % M32 ∧
    (∀ f hi, read_header f = .ok hi → leAt f 0x200 = leAt f 12) := by
  have hpre : (u32le 0x4b434150 ++ u32le 0x102 ++ u32le h.file_ver ++
      u32le h.file_cnt ++ t16).length = 0x20 := by
    simp [u32le, ht]
  have hpad : (u32le 0x4b434150 ++ u32le 0x102 ++ u32le h.file_ver ++
      u32le h.file_cnt ++ t16 ++ dataTag).length = 0x25 := by
    simp [u32le, dataTag, ht]
  have hfull : (u32le 0x4b434150 ++ u32le 0x102 ++ u32le h.file_ver ++
      u32le h.file_cnt ++ t16 ++ dataTag ++
      List.replicate (0x1e0 - 5) 0).length = 0x200 := by
    simp [u32le, dataTag, ht]
  refine ⟨write_header_length t16 h ht, ?_, ?_, ?_, ?_⟩
  · unfold write_header
    rw [show u32le 0x4b434150 ++ u32le 0x102 ++ u32le h.file_ver ++
          u32le h.file_cnt ++ t16 ++ dataTag ++ List.replicate (0x1e0 - 5) 0 ++
          u32le h.file_cnt ++ u32le h.index_size ++ u32le 0 ++
          u32le h.content_size ++ List.replicate 16 0
        = (u32le 0x4b434150 ++ u32le 0x102 ++ u32le h.file_ver ++
            u32le h.file_cnt ++ t16) ++
          (dataTag ++ (List.replicate (0x1e0 - 5) 0 ++
            (u32le h.file_cnt ++ (u32le h.index_size ++ (u32le 0 ++
              (u32le h.content_size ++ List.replicate 16 0)))))) by
      simp [List.append_assoc]]
    rw [List.drop_left' hpre]
    rw [List.take_left' (by simp [dataTag] : (dataTag : List Nat).length = 5)]
  · intro i hi1 hi2
    unfold write_header
    rw [show u32le 0x4b434150 ++ u32le 0x102 ++ u32le h.file_ver ++
          u32le h.file_cnt ++ t16 ++ dataTag ++ List.replicate (0x1e0 - 5) 0 ++
          u32le h.file_cnt ++ u32le h.index_size ++ u32le 0 ++
          u32le h.content_size ++ List.replicate 16 0
        = (u32le 0x4b434150 ++ u32le 0x102 ++ u32le h.file_ver ++
            u32le h.file_cnt ++ t16 ++ dataTag) ++
          (List.replicate (0x1e0 - 5) 0 ++
            (u32le h.file_cnt ++ (u32le h.index_size ++ (u32le 0 ++
              (u32le h.content_size ++ List.replicate 16 0))))) by
      simp [List.append_assoc]]
    rw [getD_append_right (by omega)]
    rw [hpad]
    rw [getD_append_left (by rw [List.length_replicate]; omega)]
    exact getD_replicate_zero _ _
  · unfold write_header
    rw [show u32le 0x4b434150 ++ u32le 0x102 ++ u32le h.file_ver ++
          u32le h.file_cnt ++ t16 ++ dataTag ++ List.replicate (0x1e0 - 5) 0 ++
          u32le h.file_cnt ++ u32le h.index_size ++ u32le 0 ++
          u32le h.content_size ++ List.replicate 16 0
        = (u32le 0x4b434150 ++ u32le 0x102 ++ u32le h.file_ver ++
            u32le h.file_cnt ++ t16 ++ dataTag ++
            List.replicate (0x1e0 - 5) 0) ++
          (u32le h.file_cnt ++ (u32le h.index_size ++ (u32le 0 ++
            (u32le h.content_size ++ List.replicate 16 0)))) by
      simp [List.append_assoc]]
    rw [show (0x200:Nat) = (u32le 0x4b434150 ++ u32le 0x102 ++ u32le h.file_ver ++
          u32le h.file_cnt ++ t16 ++ dataTag ++
          List.replicate (0x1e0 - 5) 0).length + 0 from by rw [hfull]]
    rw [leAt_append_right]
    exact leAt_u32le _ _
  · intro f hi hok
    unfold read_header at hok
    cases hm1 : readU32 f with
    | error e => simp only [hm1] at hok; exact absurd hok (by simp)
    | ok pr1 =>
      obtain ⟨magic, r1⟩ := pr1
      simp only [hm1] at hok
      cases hm2 : readU32 r1 with
      | error e => simp only [hm2] at hok; exact absurd hok (by simp)
      | ok pr2 =>
        obtain ⟨ver, r2⟩ := pr2
        simp only [hm2] at hok
        by_cases hmv : magic ≠ 0x4b434150 ∨ ver ≠ 0x102
        · rw [if_pos hmv] at hok
          exact absurd hok (by simp)
        · rw [if_neg hmv] at hok
          cases hm3 : readU32 r2 with
          | error e => simp only [hm3] at hok; exact absurd hok (by simp)
          | ok pr3 =>
            obtain ⟨fv, r3⟩ := pr3
            simp only [hm3] at hok
            cases hm4 : readU32 r3 with
            | error e => simp only [hm4] at hok; exact absurd hok (by simp)
            | ok pr4 =>
              obtain ⟨cnt, r4⟩ := pr4
              simp only [hm4] at hok
              cases hm5 : readU32 (r4.drop 0x1f0) with
              | error e => simp only [hm5] at hok; exact absurd hok (by simp)
              | ok pr5 =>
                obtain ⟨cnt2, r5⟩ := pr5
                simp only [hm5] at hok
                by_cases hcc : cnt2 ≠ cnt
                · rw [if_pos hcc] at hok
                  exact absurd hok (by simp)
                · rw [if_neg hcc] at hok
                  push_neg at hcc
                  obtain ⟨hv1, hr1⟩ := readU32_ok _ _ _ hm1
                  obtain ⟨hv2, hr2⟩ := readU32_ok _ _ _ hm2
                  obtain ⟨hv3, hr3⟩ := readU32_ok _ _ _ hm3
                  obtain ⟨hv4, hr4⟩ := readU32_ok _ _ _ hm4
                  obtain ⟨hv5, _⟩ := readU32_ok _ _ _ hm5
                  subst hr1 hr2 hr3 hr4
                  simp only [List.drop_drop] at hv4 hv5
                  norm_num at hv4 hv5
                  rw [leAt_drop] at hv4 hv5
                  norm_num at hv4 hv5
                  omega

/-- Witness for C4 at a concrete header. -/
theorem C4_witness :
    (write_header (List.replicate 16 0) ⟨7, 1, 2, 3⟩).length = 0x220 ∧
    leAt (write_header (List.replicate 16 0) ⟨7, 1, 2, 3⟩) 0x200 = 1 % M32 := by
  have h := C4_header_layout ⟨7, 1, 2, 3⟩ (List.replicate 16 0) (by simp)
  exact ⟨h.1, h.2.2.2.1⟩

/-- C5: `read_header` validates the magic constant, the format-version
constant and the repeated fileCount; on any input (long enough for those
reads to succeed) where one of them mismatches, it fails with the format
error, and `run_extract` then fails before any index parsing — for every
decompressor, i.e. without looking at the rest of the container. -/
theorem C5_header_validation (f : List Nat) (hlen : 0x204 ≤ f.length)
    (hbad : leAt f 0 ≠ 0x4b434150 ∨ leAt f 4 ≠ 0x102 ∨
      leAt f 0x200 ≠ leAt f 12) :
    read_header f = .error .wrongFormat ∧
    ∀ d, run_extract d f = .error (.readHeaderFail .wrongFormat) := by
  have h1 : readU32 f = .ok (leAt f 0, f.drop 4) := readU32_of_le f (by omega)
  have h2 : readU32 (f.drop 4) = .ok (leAt f 4, f.drop 8) := by
    have := readU32_of_le (f.drop 4) (by simp; omega)
    rw [leAt_drop, List.drop_drop] at this
    norm_num at this ⊢
    exact this
  have h3 : readU32 (f.drop 8) = .ok (leAt f 8, f.drop 12) := by
    have := readU32_of_le (f.drop 8) (by simp; omega)
    rw [leAt_drop, List.drop_drop] at this
    norm_num at this ⊢
    exact this
  have h4 : readU32 (f.drop 12) = .ok (leAt f 12, f.drop 16) := by
    have := readU32_of_le (f.drop 12) (by simp; omega)
    rw [leAt_drop, List.drop_drop] at this
    norm_num at this ⊢
    exact this
  have h5 : readU32 (f.drop 0x200) = .ok (leAt f 0x200, f.drop 0x204) := by
    have := readU32_of_le (f.drop 0x200) (by simp; omega)
    rw [leAt_drop, List.drop_drop] at this
    norm_num at this ⊢
    exact this
  have hdd : (f.drop 16).drop 0x1f0 = f.drop 0x200 := by
    rw [List.drop_drop]
  have hrh : read_header f = .error .wrongFormat := by
    unfold read_header
    simp only [h1, h2]
    by_cases hmv : leAt f 0 ≠ 0x4b434150 ∨ leAt f 4 ≠ 0x102
    · rw [if_pos hmv]
    · rw [if_neg hmv]
      have hcc : leAt f 0x200 ≠ leAt f 12 := by tauto
      simp only [h3, h4, hdd, h5]
      rw [if_pos hcc]
  refine ⟨hrh, fun d => ?_⟩
  unfold run_extract
  rw [hrh]

/-- Witness for C5 on an all-zero 0x204-byte input (bad magic). -/
theorem C5_witness :
    read_header (List.replicate 0x204 0) = .error .wrongFormat ∧
    run_extract (fun _ => none) (List.replicate 0x204 0)
      = .error (.readHeaderFail .wrongFormat) := by
  have h := C5_header_validation (List.replicate 0x204 0) (by simp)
    (Or.inl (by decide))
  exact ⟨h.1, h.2 _⟩

/-- C6: extraction of an entry processes exactly `raw_size` bytes read at
offset `HEADER_SIZE + index_size + off`: it succeeds with output `out` if
and only if that read is in bounds, de-obfuscating and decompressing the
slice yields `out`, and `out` has exactly the recorded `uncompr_size`; when
decompression succeeds with any other length the entry fails with the
corrupted-file error, never returning short or long data silently. -/
theorem C6_extract_validates (d : List Nat → Option (List Nat)) (f : List Nat)
    (h : HeadInfo) (fi : FileInfo) :
    (∀ out, extract_file d f h fi = .ok out ↔
      (HEADER_SIZE + h.index_size + fi.off + fi.raw_size ≤ f.length ∧
       d (extractDeobfuscate
           ((f.drop (HEADER_SIZE + h.index_size + fi.off)).take fi.raw_size)
           fi.version) = some out ∧
       out.length = fi.uncompr_size)) ∧
    (∀ out, HEADER_SIZE + h.index_size + fi.off + fi.raw_size ≤ f.length →
      d (extractDeobfuscate
          ((f.drop (HEADER_SIZE + h.index_size + fi.off)).take fi.raw_size)
          fi.version) = some out →
      out.length ≠ fi.uncompr_size →
      extract_file d f h fi = .error .corruptedFile) := by
  constructor
  · intro out
    constructor
    · intro hok
      unfold extract_file at hok
      by_cases hb : HEADER_SIZE + h.index_size + fi.off + fi.raw_size ≤ f.length
      · rw [if_pos hb] at hok
        refine ⟨hb, ?_⟩
        cases hd : d (extractDeobfuscate
            ((f.drop (HEADER_SIZE + h.index_size + fi.off)).take fi.raw_size)
            fi.version) with
        | none => simp only [hd] at hok; exact absurd hok (by simp)
        | some dec =>
          simp only [hd] at hok
          by_cases hl : dec.length ≠ fi.uncompr_size
          · rw [if_pos hl] at hok
            exact absurd hok (by simp)
          · rw [if_neg hl] at hok
            push_neg at hl
            cases hok
            exact ⟨rfl, hl⟩
      · rw [if_neg hb] at hok
        exact absurd hok (by simp)
    · rintro ⟨hb, hd, hl⟩
      unfold extract_file
      rw [if_pos hb]
      simp only [hd]
      rw [if_neg (by omega)]
  · intro out hb hd hl
    unfold extract_file
    rw [if_pos hb]
    simp only [hd]
    rw [if_pos hl]

/-- Witness for C6: a decompressor returning one byte against a recorded
uncompressed size of 5 makes extraction fail with the corrupted-file
error. -/
theorem C6_witness :
    extract_file (fun _ => some [1]) (List.replicate 0x220 0)
      ⟨0, 0, 0, 0⟩ ⟨[], 0, 0, 0, 5⟩ = .error .corruptedFile := by
  have h := C6_extract_validates (fun _ => some [1]) (List.replicate 0x220 0)
    ⟨0, 0, 0, 0⟩ ⟨[], 0, 0, 0, 5⟩
  exact h.2 [1] (by simp [HEADER_SIZE]) rfl (by decide)

lemma getD_map_payload (g : List Nat × List Nat → List Nat)
    (files : List (List Nat × List Nat)) (i : Nat) (hi : i < files.length) :
    (files.map g).getD i [] = g (files.getD i ([], [])) := by
  simp [List.getD_eq_getElem?_getD, List.getElem?_map, List.getElem?_eq_getElem hi]

/-- C7: after a pack operation over an ordered file list, the offset
recorded for entry `i` equals the sum of `raw_size` over the entries before
it; the container is exactly the header, the index region and the content
region concatenated, the regions having exactly the recorded sizes (so the
content region starts immediately after the index region and holds exactly
contentSize bytes); and entry `i`'s payload bytes sit at absolute positions
`HEADER_SIZE + indexSize + offset_i + j`. -/
theorem C7_pack_layout (compress : List Nat → List Nat)
    (ftime : List Nat → List Nat) (time16 : List Nat)
    (files : List (List Nat × List Nat)) (key : Nat)
    (Ht16 : time16.length = 16) (Hft : ∀ n, (ftime n).length = 40)
    (Hne : ∀ p ∈ files, compress p.2 ≠ [])
    (Hsum : (files.map (fun p => (compress p.2).length)).sum < M32) :
    (∀ i, i < files.length →
      ((pack_entries compress key files 0).getD i ⟨[], 0, 0, 0, 0⟩).off
        = (((pack_entries compress key files 0).take i).map
            FileInfo.raw_size).sum) ∧
    run_pack compress ftime time16 files key
      = write_header time16
          ⟨key, files.length % M32,
           (files.map (fun p => (calc_str_size p.1.length).1 + 0x40)).sum % M32,
           (files.map (fun p => (compress p.2).length)).sum % M32⟩ ++
        (pack_index_content compress ftime key files 0).1 ++
        (pack_index_content compress ftime key files 0).2 ∧
    (pack_index_content compress ftime key files 0).1.length
      = (files.map (fun p => (calc_str_size p.1.length).1 + 0x40)).sum ∧
    (pack_index_content compress ftime key files 0).2.length
      = (files.map (fun p => (compress p.2).length)).sum ∧
    (∀ i, i < files.length → ∀ j,
      j < (packObfuscate (compress (files.getD i ([], [])).2) key).length →
      (run_pack compress ftime time16 files key).getD
          (HEADER_SIZE +
            (files.map (fun p => (calc_str_size p.1.length).1 + 0x40)).sum +
            ((pack_entries compress key files 0).getD i ⟨[], 0, 0, 0, 0⟩).off +
            j) 0
        = (packObfuscate (compress (files.getD i ([], [])).2) key).getD j 0) := by
  have hoff : ∀ i, i < files.length →
      ((pack_entries compress key files 0).getD i ⟨[], 0, 0, 0, 0⟩).off
        = ((files.take i).map (fun p => (compress p.2).length)).sum := by
    intro i hi
    rw [pack_entries_off compress key files 0 (by omega) i hi]
    omega
  refine ⟨?_, run_pack_eq compress ftime time16 files key Ht16 Hft Hne Hsum,
    pic_fst_length compress ftime key Hft files 0,
    pic_snd_length compress ftime key files 0, ?_⟩
  · intro i hi
    rw [hoff i hi]
    conv_rhs => rw [List.map_take, pack_entries_raw compress key files 0 Hsum]
    rw [List.map_take]
  · intro i hi j hj
    rw [run_pack_eq compress ftime time16 files key Ht16 Hft Hne Hsum]
    have hA : (write_header time16
          ⟨key, files.length % M32,
           (files.map (fun p => (calc_str_size p.1.length).1 + 0x40)).sum % M32,
           (files.map (fun p => (compress p.2).length)).sum % M32⟩ ++
        (pack_index_content compress ftime key files 0).1).length
        = HEADER_SIZE +
          (files.map (fun p => (calc_str_size p.1.length).1 + 0x40)).sum := by
      rw [List.length_append, write_header_length _ _ Ht16,
        pic_fst_length compress ftime key Hft files 0]
      rfl
    rw [getD_append_right (by rw [hA]; omega)]
    rw [hA]
    rw [show HEADER_SIZE +
          (files.map (fun p => (calc_str_size p.1.length).1 + 0x40)).sum +
          ((pack_entries compress key files 0).getD i ⟨[], 0, 0, 0, 0⟩).off + j -
          (HEADER_SIZE +
            (files.map (fun p => (calc_str_size p.1.length).1 + 0x40)).sum)
        = ((pack_entries compress key files 0).getD i ⟨[], 0, 0, 0, 0⟩).off + j
        by omega]
    rw [pic_snd compress ftime key files 0]
    rw [hoff i hi]
    have hlens : ((files.take i).map (fun p => (compress p.2).length)).sum
        = (((files.map (fun p => packObfuscate (compress p.2) key)).take i).map
            List.length).sum := by
      rw [← List.map_take, List.map_map]
      congr 1
      apply List.map_congr_left
      intro p _
      exact (packObfuscate_length _ _).symm
    rw [hlens]
    have hgd : (files.map (fun p => packObfuscate (compress p.2) key)).getD i []
        = packObfuscate (compress (files.getD i ([], [])).2) key :=
      getD_map_payload _ files i hi
    rw [flatten_getD _ i j (by rw [hgd]; exact hj), hgd]

/-- Witness for C7 on a one-file list with an identity compressor. -/
theorem C7_witness :
    ((pack_entries (fun l => l) 7 [([97], [104, 105])] 0).getD 0
        ⟨[], 0, 0, 0, 0⟩).off
      = (((pack_entries (fun l => l) 7 [([97], [104, 105])] 0).take 0).map
          FileInfo.raw_size).sum ∧
    (pack_index_content (fun l => l) (fun _ => List.replicate 40 0) 7
        [([97], [104, 105])] 0).2.length = 2 := by
  have h := C7_pack_layout (fun l => l) (fun _ => List.replicate 40 0)
    (List.replicate 16 0) [([97], [104, 105])] 7 (by simp)
    (fun n => by simp) (by decide) (by decide)
  exact ⟨h.1 0 (by decide), (h.2.2.2.1).trans (by decide)⟩

lemma calc_le (l : Nat) : (calc_str_size l).1 ≤ l + 96 := by
  unfold calc_str_size
  by_cases h1 : l ≤ 14
  · simp [h1]
  · by_cases h2 : l ≤ 30
    · simp [h1, h2]
    · by_cases h3 : l ≤ 46
      · simp [h1, h2, h3]
      · by_cases h4 : l ≤ 62
        · simp [h1, h2, h3, h4]
        · by_cases h5 : l ≤ 94
          · simp [h1, h2, h3, h4, h5]
          · simp [h1, h2, h3, h4, h5]
            omega

/-- C1: the pack/extract round trip on a single file: packing a container
holding `bytes` at `path` with a version key, then extracting that
container, returns exactly the original bytes at the original path — the
compress / XOR-obfuscate / index steps of pack are inverted by the
seek / de-obfuscate / decompress steps of extract.  The zlib codec is an
external library, so it enters as a `compress`/`decompress` pair assumed to
invert on `bytes` and to produce output that is nonempty (zlib output always
is) and of u32 size; the path is a filesystem path, hence free of NUL bytes
and of sane length; the key is a u32. -/
theorem C1_round_trip (compress : List Nat → List Nat)
    (decompress : List Nat → Option (List Nat)) (path bytes time16 : List Nat)
    (ftime : List Nat → List Nat) (key : Nat)
    (Ht16 : time16.length = 16) (Hft : ∀ n, (ftime n).length = 40)
    (Hnul : ∀ b ∈ path, b ≠ 0) (Hpath : path.length < 2 ^ 31)
    (Hkey : key < M32) (Hbytes : bytes.length < M32)
    (Hraw : (compress bytes).length < M32) (Hne : compress bytes ≠ [])
    (Hcodec : decompress (compress bytes) = some bytes) :
    run_extract decompress (run_pack compress ftime time16 [(path, bytes)] key)
      = .ok [(path, bytes)] := by
  have hM32 : M32 = 4294967296 := by norm_num [M32]
  have h31 : (2:Nat) ^ 31 = 2147483648 := by norm_num
  have hcle := calc_le path.length
  have hIS : (calc_str_size path.length).1 + 0x40 < M32 := by omega
  have hplen : (packObfuscate (compress bytes) key).length
      = (compress bytes).length := packObfuscate_length _ _
  have hKeyM : key % M32 = key := Nat.mod_eq_of_lt Hkey
  have hISM : ((calc_str_size path.length).1 + 0x40) % M32
      = (calc_str_size path.length).1 + 0x40 := Nat.mod_eq_of_lt hIS
  have hLENM : (compress bytes).length % M32 = (compress bytes).length :=
    Nat.mod_eq_of_lt Hraw
  have h1M : (1:Nat) % M32 = 1 := Nat.mod_eq_of_lt (by omega)
  have hPM : (packObfuscate (compress bytes) key).length % M32
      = (packObfuscate (compress bytes) key).length := by
    rw [hplen]
    exact hLENM
  have hBM : bytes.length % M32 = bytes.length := Nat.mod_eq_of_lt Hbytes
  have hrp := run_pack_eq compress ftime time16 [(path, bytes)] key Ht16 Hft
    (by intro p hp
        obtain rfl := List.mem_singleton.mp hp
        exact Hne)
    (by simp only [List.map_cons, List.map_nil, List.sum_cons, List.sum_nil]
        omega)
  simp only [List.map_cons, List.map_nil, List.sum_cons, List.sum_nil,
    Nat.add_zero, List.length_cons, List.length_nil, Nat.zero_add] at hrp
  rw [show pack_index_content compress ftime key [(path, bytes)] 0
      = (write_file_entry (ftime path)
          ⟨path, key, 0, (packObfuscate (compress bytes) key).length % M32,
            bytes.length % M32⟩,
         packObfuscate (compress bytes) key) from by
    simp [pack_index_content]] at hrp
  dsimp only at hrp
  rw [hrp, List.append_assoc]
  have hhl : (write_header time16
      ⟨key, 1 % M32, ((calc_str_size path.length).1 + 0x40) % M32,
        (compress bytes).length % M32⟩).length = HEADER_SIZE :=
    write_header_length _ _ Ht16
  have hesz : (write_file_entry (ftime path)
      ⟨path, key, 0, (packObfuscate (compress bytes) key).length % M32,
        bytes.length % M32⟩).length = (calc_str_size path.length).1 + 0x40 :=
    write_file_entry_length _ _ (Hft path)
  have hrh := read_header_write_header time16
    ⟨key, 1 % M32, ((calc_str_size path.length).1 + 0x40) % M32,
      (compress bytes).length % M32⟩
    (write_file_entry (ftime path)
        ⟨path, key, 0, (packObfuscate (compress bytes) key).length % M32,
          bytes.length % M32⟩ ++ packObfuscate (compress bytes) key)
    Ht16
  dsimp only at hrh
  have hrh2 : read_header
      (write_header time16
          ⟨key, 1 % M32, ((calc_str_size path.length).1 + 0x40) % M32,
            (compress bytes).length % M32⟩ ++
        (write_file_entry (ftime path)
            ⟨path, key, 0, (packObfuscate (compress bytes) key).length % M32,
              bytes.length % M32⟩ ++ packObfuscate (compress bytes) key))
      = .ok ⟨key, 1, (calc_str_size path.length).1 + 0x40,
          (compress bytes).length⟩ := by
    rw [hrh]
    simp only [hKeyM, h1M, hISM, hLENM]
  have hri : read_index
      (write_header time16
          ⟨key, 1 % M32, ((calc_str_size path.length).1 + 0x40) % M32,
            (compress bytes).length % M32⟩ ++
        (write_file_entry (ftime path)
            ⟨path, key, 0, (packObfuscate (compress bytes) key).length % M32,
              bytes.length % M32⟩ ++ packObfuscate (compress bytes) key))
      ⟨key, 1, (calc_str_size path.length).1 + 0x40, (compress bytes).length⟩
      = .ok [⟨path, key, 0, (packObfuscate (compress bytes) key).length,
          bytes.length⟩] := by
    unfold read_index
    dsimp only
    rw [if_pos (by
      simp only [List.length_append, hhl, hesz, HEADER_SIZE]
      omega)]
    rw [List.drop_left' hhl]
    rw [List.take_left' hesz]
    conv_lhs =>
      rw [show write_file_entry (ftime path)
            ⟨path, key, 0, (packObfuscate (compress bytes) key).length % M32,
              bytes.length % M32⟩
          = write_file_entry (ftime path)
              ⟨path, key, 0, (packObfuscate (compress bytes) key).length % M32,
                bytes.length % M32⟩ ++ ([] : List Nat)
        from (List.append_nil _).symm]
    rw [read_index_go_entry (ftime path) _ [] 0 (Hft path) Hnul
      (by show path.length + 21 < M32
          omega)]
    dsimp only [read_index_go]
    simp only [hKeyM, hPM, hBM, Nat.zero_mod]
  unfold run_extract
  rw [hrh2]
  dsimp only
  rw [hri]
  dsimp only
  have hef : extract_file decompress
      (write_header time16
          ⟨key, 1 % M32, ((calc_str_size path.length).1 + 0x40) % M32,
            (compress bytes).length % M32⟩ ++
        (write_file_entry (ftime path)
            ⟨path, key, 0, (packObfuscate (compress bytes) key).length % M32,
              bytes.length % M32⟩ ++ packObfuscate (compress bytes) key))
      ⟨key, 1, (calc_str_size path.length).1 + 0x40, (compress bytes).length⟩
      ⟨path, key, 0, (packObfuscate (compress bytes) key).length, bytes.length⟩
      = .ok bytes := by
    unfold extract_file
    dsimp only
    rw [if_pos (by
      simp only [List.length_append, hhl, hesz, HEADER_SIZE]
      omega)]
    rw [show HEADER_SIZE + ((calc_str_size path.length).1 + 0x40) + 0
        = (write_header time16
            ⟨key, 1 % M32, ((calc_str_size path.length).1 + 0x40) % M32,
              (compress bytes).length % M32⟩ ++
          write_file_entry (ftime path)
            ⟨path, key, 0, (packObfuscate (compress bytes) key).length % M32,
              bytes.length % M32⟩).length from by
      rw [List.length_append, hhl, hesz]
      omega]
    rw [← List.append_assoc, List.drop_left, List.take_length]
    rw [deobfuscate_obfuscate]
    simp only [Hcodec]
    rw [if_neg (by omega)]
  simp only [extract_loop, hef]

/-- Witness for C1: a two-byte file at path "a" with the identity codec and
version key 7. -/
theorem C1_witness :
    run_extract (fun l => some l)
      (run_pack (fun l => l) (fun _ => List.replicate 40 0)
        (List.replicate 16 0) [([97], [104, 105])] 7)
      = .ok [([97], [104, 105])] := by
  have hM32 : M32 = 4294967296 := by norm_num [M32]
  exact C1_round_trip (fun l => l) (fun l => some l) [97] [104, 105]
    (List.replicate 16 0) (fun _ => List.replicate 40 0) 7
    (by simp) (fun n => by simp) (by decide) (by norm_num)
    (by rw [hM32]; decide) (by rw [hM32]; decide) (by rw [hM32]; decide)
    (by decide) rfl

end Mabi
